import Mathlib

/-
Verification of the kv-store repository: a shallow embedding in Lean 4 of the
parser (package parser), the wire-layer command validation and dispatch
(package server), and the transactional multi-database store
(package store: store.go and the in-memory storage backend), together with
theorems settling the behavioural claims about those components.

Conventions of the embedding:
- Go maps are modelled as association lists with unique keys; goMapGet,
  goMapSet and goMapDel give the observable map operations (goMapDel removes
  every entry with the key, which coincides with the Go delete on the
  unique-key maps the program builds).
- Go int64 values are modelled as Int; every arithmetic step of the source is
  guarded by the same range checks the source performs, and theorems that
  need it carry explicit int64-range hypotheses.
- Functions that can hit a Go runtime panic (index out of range on a command
  argument vector, nil-pointer dereference on a transaction record) return an
  Option, with none standing for the panic.
- Strings are Lean String (lists of unicode scalars), matching Go range-over-
  string rune iteration. The space predicate covers the Latin-1 portion of
  unicode.IsSpace; the wider unicode space runes are not relevant to any
  claim.
-/

namespace KV

/-! ### Go map primitives (association lists) -/

/-- Lookup in a Go map modelled as an association list: the value of the
first entry with the key. -/
def goMapGet {β : Type} : List (String × β) → String → Option β
  | [], _ => none
  | (k1, v1) :: rest, k => if k1 = k then some v1 else goMapGet rest k

/-- Go map assignment m[k] = v: replace the first entry with the key, or
append a new entry. -/
def goMapSet {β : Type} : List (String × β) → String → β → List (String × β)
  | [], k, v => [(k, v)]
  | (k1, v1) :: rest, k, v =>
    if k1 = k then (k, v) :: rest else (k1, v1) :: goMapSet rest k v

/-- Go delete(m, k): removes the entry with the key (all occurrences; on the
unique-key maps the program builds this is the same map). -/
def goMapDel {β : Type} : List (String × β) → String → List (String × β)
  | [], _ => []
  | (k1, v1) :: rest, k =>
    if k1 = k then goMapDel rest k else (k1, v1) :: goMapDel rest k

/-! ### Errors: one constructor per distinct error value constructed by the
source (package store and package server). -/

/-- Error values of the program. intOverflow: err increment or decrement
would overflow; noTransactionInProgress: err no transaction in progress;
transactionInProgress: err transaction already in progress; notInteger: err
value is not an integer or out of range; unknownCommand: err unknown
command: name; selectInTransaction: err SELECT is not allowed in
transactions; transactionDiscardedDueToPriorErrors: err Transaction
discarded because of previous errors; wrongArguments: wrong number of
arguments for name command. -/
inductive KVError where
  | intOverflow
  | noTransactionInProgress
  | transactionInProgress
  | notInteger
  | unknownCommand (name : String)
  | selectInTransaction
  | transactionDiscardedDueToPriorErrors
  | wrongArguments (name : String)
  deriving DecidableEq, Repr

/-- Parse-layer errors of ParseCommandLine. -/
inductive ParseError where
  | mismatchedQuotes
  | emptyCommand
  | missingArgs
  deriving DecidableEq, Repr

/-! ### Line codec (package parser, ParseCommandLine) -/

/-- Latin-1 portion of the Go unicode.IsSpace predicate used by the
tokenizer. -/
def goIsSpace (c : Char) : Bool :=
  c = ' ' ∨ c = '\t' ∨ c = '\n' ∨ c = '\x0b' ∨ c = '\x0c' ∨ c = '\r' ∨
    c = '\x85' ∨ c = '\xa0'

/-- Embeds the rune loop of ParseCommandLine: builds the token list, carrying
the current token, the in-quotes flag and the escaped flag; at the end of the
input a nonempty current token is flushed. Returns the tokens and the final
in-quotes flag. -/
def tokenizeLoop : List Char → List String → String → Bool → Bool →
    (List String × Bool)
  | [], args, curr, inQuotes, _ =>
    (if curr.length > 0 then args ++ [curr] else args, inQuotes)
  | c :: rest, args, curr, inQuotes, escaped =>
    if escaped then
      tokenizeLoop rest args (curr.push c) inQuotes false
    else if c = '\\' then
      tokenizeLoop rest args curr inQuotes true
    else if c = '"' then
      tokenizeLoop rest args curr (!inQuotes) escaped
    else if goIsSpace c ∧ !inQuotes then
      (if curr.length > 0 then tokenizeLoop rest (args ++ [curr]) "" inQuotes escaped
       else tokenizeLoop rest args curr inQuotes escaped)
    else
      tokenizeLoop rest args (curr.push c) inQuotes escaped

/-- Embeds strings.ToUpper as used on the command token: upper-case every
rune. -/
def goToUpper (s : String) : String := ⟨s.data.map Char.toUpper⟩

/-- Embeds ParseCommandLine of the parser package: tokenize the line, then
reject an unbalanced quote, an empty token list, or a single token; otherwise
return the first token upper-cased and the remaining tokens. -/
def ParseCommandLine (line : String) : Except ParseError (String × List String) :=
  let r := tokenizeLoop line.data [] "" false false
  if r.2 then
    Except.error ParseError.mismatchedQuotes
  else if r.1.length = 0 then
    Except.error ParseError.emptyCommand
  else if r.1.length = 1 then
    Except.error ParseError.missingArgs
  else
    Except.ok (goToUpper (r.1.headD ""), r.1.tail)

/-! ### Integer parsing and formatting (Go strconv, base 10, bit size 64) -/

def maxInt64 : Int := 9223372036854775807

def minInt64 : Int := -9223372036854775808

/-- Value of a nonempty decimal digit string. -/
def digitsVal : List Char → Nat
  | [] => 0
  | c :: rest => List.foldl (fun acc d => acc * 10 + (d.toNat - 48)) (c.toNat - 48) rest

/-- Returns the value when it fits the signed 64-bit range, none otherwise
(the error return of strconv.ParseInt). -/
def rangeCheck64 (v : Int) : Option Int :=
  if minInt64 ≤ v ∧ v ≤ maxInt64 then some v else none

/-- Embeds the Go strconv.ParseInt with base 10 and bit size 64 on the
digits after the optional sign: a nonempty digit string whose signed value
fits the 64-bit range; none models a returned error (syntax or range). -/
def goParseIntCore (neg : Bool) (ds : List Char) : Option Int :=
  if ds = [] then none
  else if ds.all Char.isDigit then
    rangeCheck64 (if neg then -(digitsVal ds : Int) else (digitsVal ds : Int))
  else none

def goParseInt (s : String) : Option Int :=
  match s.data with
  | '+' :: r => goParseIntCore false r
  | '-' :: r => goParseIntCore true r
  | r => goParseIntCore false r

/-- Embeds validateCommand of the server package: exact arity per command,
INCRBY additionally requires the second argument to parse as int64; unknown
names are rejected. Returns none when validation passes. -/
def validateCommand (command : String) (args : List String) : Option KVError :=
  if command = "SET" then
    if args.length ≠ 2 then some (KVError.wrongArguments "SET") else none
  else if command = "GET" then
    if args.length ≠ 1 then some (KVError.wrongArguments "GET") else none
  else if command = "DEL" then
    if args.length ≠ 1 then some (KVError.wrongArguments "DEL") else none
  else if command = "INCR" then
    if args.length ≠ 1 then some (KVError.wrongArguments "INCR") else none
  else if command = "INCRBY" then
    if args.length ≠ 2 then some (KVError.wrongArguments "INCRBY")
    else match goParseInt (args.getD 1 "") with
      | none => some KVError.notInteger
      | some _ => none
  else some (KVError.unknownCommand command)

/-! ### Storage backend (package store, MemoryStorage) -/

/-- Embeds strconv.FormatInt with base 10: decimal digits with a leading
minus sign for negatives. -/
def goFormatInt (n : Int) : String := toString n

/-- Embeds checkIntegerOverflow of store.go: flags an overflow before the
addition is performed. -/
def checkIntegerOverflow (currentValue increment : Int) : Option KVError :=
  if increment > 0 ∧ currentValue > maxInt64 - increment then
    some KVError.intOverflow
  else if increment < 0 ∧ currentValue < minInt64 - increment then
    some KVError.intOverflow
  else none

/-- The in-memory storage backend: the fixed database count and, for each
index, the key-value map of that database. Databases with index at or above
numDatabases are never touched by the program (a Go access there panics);
theorems about a database index carry the in-range hypothesis where the
claim states one. -/
structure MemoryStorage where
  numDatabases : Nat
  data : Nat → List (String × String)

/-- A storage whose databases are all empty, as built by NewMemoryStorage. -/
def newMemoryStorage (n : Nat) : MemoryStorage :=
  { numDatabases := n, data := fun _ => [] }

/-- Embeds MemoryStorage.Get. -/
def msGet (st : MemoryStorage) (i : Nat) (k : String) : Option String :=
  goMapGet (st.data i) k

/-- Embeds MemoryStorage.Set. -/
def msSet (st : MemoryStorage) (i : Nat) (k v : String) : MemoryStorage :=
  { st with data := fun j => if j = i then goMapSet (st.data i) k v else st.data j }

/-- Embeds MemoryStorage.Del: 0 and no change when the key is absent, else 1
and the key removed. -/
def msDel (st : MemoryStorage) (i : Nat) (k : String) : Nat × MemoryStorage :=
  match goMapGet (st.data i) k with
  | none => (0, st)
  | some _ =>
    (1, { st with data := fun j => if j = i then goMapDel (st.data i) k else st.data j })

/-- One database worth of MemoryStorage.IncrBy: read the current value
(absent reads as 0, an unparsable stored value is NotInteger), check the
overflow before adding, then store the formatted sum. -/
def mapIncrBy (m : List (String × String)) (key : String) (inc : Int) :
    Except KVError Int × List (String × String) :=
  let parsed : Except KVError Int :=
    match goMapGet m key with
    | none => Except.ok 0
    | some v =>
      match goParseInt v with
      | none => Except.error KVError.notInteger
      | some cur => Except.ok cur
  match parsed with
  | Except.error e => (Except.error e, m)
  | Except.ok cur =>
    match checkIntegerOverflow cur inc with
    | some e => (Except.error e, m)
    | none => (Except.ok (cur + inc), goMapSet m key (goFormatInt (cur + inc)))

/-- Embeds MemoryStorage.IncrBy: on any error the storage is returned
untouched (the Go code returns before the write). -/
def msIncrBy (st : MemoryStorage) (i : Nat) (k : String) (inc : Int) :
    Except KVError Int × MemoryStorage :=
  match mapIncrBy (st.data i) k inc with
  | (Except.error e, _) => (Except.error e, st)
  | (Except.ok n, m1) =>
    (Except.ok n, { st with data := fun j => if j = i then m1 else st.data j })

/-- Embeds MemoryStorage.Compact: the SET lines of the database joined by
newlines (entry order is the list order; Go map iteration order is
unspecified). -/
def msCompact (st : MemoryStorage) (i : Nat) : String :=
  String.intercalate "\n" ((st.data i).map (fun p => "SET " ++ p.1 ++ " " ++ p.2))

/-! ### Transactional store (package store, store.go)

The transaction book maps a session id to a transaction pointer; an entry
whose value is none models a stored nil pointer, which the successful branch
of ExecuteTransaction writes. Operations that dereference such a nil pointer
return none (a Go runtime panic). -/

/-- A queued command: its upper-cased name and argument vector. -/
structure Command where
  name : String
  args : List String
  deriving DecidableEq, Repr

/-- The original-values field maps a key to its pre-image: none models a nil
pointer (key originally absent), some v a pointer to the saved value. -/
structure Transaction where
  commands : List Command
  originalValues : List (String × Option String)
  hasErrors : Bool
  dbIndex : Nat
  deriving DecidableEq, Repr

/-- The store of store.go: the storage backend, the transaction book and
the per-client db index registry. -/
structure Store where
  storage : MemoryStorage
  transactions : List (String × Option Transaction)
  clientDBIndices : List (String × Nat)

/-- Embeds CreateNewStore. -/
def createNewStore (storage : MemoryStorage) : Store :=
  { storage := storage, transactions := [], clientDBIndices := [] }

/-- Embeds Store.GetClientDBIndex: 0 for an unknown client. -/
def getClientDBIndex (s : Store) (clientId : String) : Nat :=
  match goMapGet s.clientDBIndices clientId with
  | none => 0
  | some i => i

/-- Embeds Store.SetClientDBIndex. -/
def setClientDBIndex (s : Store) (clientId : String) (i : Nat) : Store :=
  { s with clientDBIndices := goMapSet s.clientDBIndices clientId i }

/-- Embeds Store.InTransaction: true exactly when the book has an entry for
the id (even one holding a nil pointer). -/
def inTransaction (s : Store) (transactionId : String) : Bool :=
  (goMapGet s.transactions transactionId).isSome

/-- Embeds Store.StartTransaction: refuses when the book already has an
entry, else records a fresh transaction capturing the current db index of
the session. -/
def startTransaction (s : Store) (transactionId : String) :
    Except KVError Unit × Store :=
  if inTransaction s transactionId then
    (Except.error KVError.transactionInProgress, s)
  else
    let t : Transaction :=
      { commands := [], originalValues := [], hasErrors := false,
        dbIndex := getClientDBIndex s transactionId }
    (Except.ok (), { s with transactions := goMapSet s.transactions transactionId (some t) })

/-- Embeds Store.QueueCommand; appending through a nil transaction pointer is
a Go panic, modelled as none. -/
def queueCommand (s : Store) (transactionId name : String) (args : List String) :
    Option (Except KVError Unit × Store) :=
  match goMapGet s.transactions transactionId with
  | none => some (Except.error KVError.noTransactionInProgress, s)
  | some none => none
  | some (some t) =>
    let t1 : Transaction :=
      { t with commands := t.commands ++ [{ name := name, args := args }] }
    some (Except.ok (), { s with transactions := goMapSet s.transactions transactionId (some t1) })

/-- Embeds Store.DiscardTransaction. -/
def discardTransaction (s : Store) (transactionId : String) :
    Except KVError Unit × Store :=
  if inTransaction s transactionId then
    (Except.ok (), { s with transactions := goMapDel s.transactions transactionId })
  else
    (Except.error KVError.noTransactionInProgress, s)

/-- Embeds Store.ReportTransactionError; setting the flag through a nil
transaction pointer is a Go panic, modelled as none. -/
def reportTransactionError (s : Store) (transactionId : String) : Option Store :=
  match goMapGet s.transactions transactionId with
  | none => some s
  | some none => none
  | some (some t) =>
    let t1 : Transaction := { t with hasErrors := true }
    some { s with transactions := goMapSet s.transactions transactionId (some t1) }

/-- Embeds Store.saveOriginalValue: capture the pre-image of the key on the
first touch only; a present value is saved, an absent key is recorded as a
nil pointer. -/
def saveOriginalValue (st : MemoryStorage) (dbIndex : Nat)
    (ov : List (String × Option String)) (key : String) :
    List (String × Option String) :=
  match goMapGet ov key with
  | some _ => ov
  | none => goMapSet ov key (msGet st dbIndex key)

/-- The storage restoration of Store.rollbackSelective: every captured key
is set back to its saved value, or deleted when the pre-image is the nil
pointer. The book removal done by rollbackSelective is applied by
executeTransaction below. -/
def rollbackSelective (dbIndex : Nat) :
    List (String × Option String) → MemoryStorage → MemoryStorage
  | [], st => st
  | (k, none) :: rest, st => rollbackSelective dbIndex rest (msDel st dbIndex k).2
  | (k, some v) :: rest, st => rollbackSelective dbIndex rest (msSet st dbIndex k v)

/-- Result of one queued command inside ExecuteTransaction: the textual
result with the storage and original-values updates, or the error that
aborts the batch (with the original values as mutated so far). -/
inductive StepResult where
  | ok (result : String) (st : MemoryStorage) (ov : List (String × Option String))
  | fail (e : KVError) (ov : List (String × Option String))

/-- One iteration of the command switch of ExecuteTransaction, against the
captured db index; none models the Go panic of indexing a too-short argument
vector. -/
def execCommand (dbI : Nat) (st : MemoryStorage)
    (ov : List (String × Option String)) (c : Command) : Option StepResult :=
  if c.name = "SET" then
    match c.args with
    | a0 :: a1 :: _ =>
      let ov1 := saveOriginalValue st dbI ov a0
      some (StepResult.ok "OK" (msSet st dbI a0 a1) ov1)
    | _ => none
  else if c.name = "GET" then
    match c.args with
    | a0 :: _ =>
      match msGet st dbI a0 with
      | none => some (StepResult.ok "nil" st ov)
      | some v => some (StepResult.ok v st ov)
    | _ => none
  else if c.name = "DEL" then
    match c.args with
    | a0 :: _ =>
      let ov1 := saveOriginalValue st dbI ov a0
      let r := msDel st dbI a0
      some (StepResult.ok (goFormatInt (r.1 : Int)) r.2 ov1)
    | _ => none
  else if c.name = "INCR" then
    match c.args with
    | a0 :: _ =>
      let ov1 := saveOriginalValue st dbI ov a0
      match msIncrBy st dbI a0 1 with
      | (Except.error e, _) => some (StepResult.fail e ov1)
      | (Except.ok n, st1) => some (StepResult.ok (goFormatInt n) st1 ov1)
    | _ => none
  else if c.name = "INCRBY" then
    match c.args with
    | a0 :: a1 :: _ =>
      match goParseInt a1 with
      | none => some (StepResult.fail KVError.notInteger ov)
      | some inc =>
        let ov1 := saveOriginalValue st dbI ov a0
        match msIncrBy st dbI a0 inc with
        | (Except.error e, _) => some (StepResult.fail e ov1)
        | (Except.ok n, st1) => some (StepResult.ok (goFormatInt n) st1 ov1)
    | _ => none
  else if c.name = "COMPACT" then
    some (StepResult.ok (msCompact st dbI) st ov)
  else if c.name = "SELECT" then
    some (StepResult.fail KVError.selectInTransaction ov)
  else
    some (StepResult.fail (KVError.unknownCommand c.name) ov)

/-- Outcome of the command loop of ExecuteTransaction: the collected results,
or the aborting error with the storage already rolled back. -/
inductive LoopOutcome where
  | success (results : List String) (st : MemoryStorage)
      (ov : List (String × Option String))
  | aborted (e : KVError) (st : MemoryStorage)
      (ov : List (String × Option String))

/-- The command loop of ExecuteTransaction: runs the queued commands in
order against the captured db index, accumulating results; on the first
error it applies the selective rollback and stops. -/
def execLoop (dbI : Nat) :
    List Command → MemoryStorage → List (String × Option String) →
    List String → Option LoopOutcome
  | [], st, ov, acc => some (LoopOutcome.success acc st ov)
  | c :: rest, st, ov, acc =>
    match execCommand dbI st ov c with
    | none => none
    | some (StepResult.fail e ov1) =>
      some (LoopOutcome.aborted e (rollbackSelective dbI ov1 st) ov1)
    | some (StepResult.ok r st1 ov1) => execLoop dbI rest st1 ov1 (acc ++ [r])

/-- Embeds Store.ExecuteTransaction. A missing book entry is an error; a nil
entry panics at the hasErrors dereference (none); a set hasErrors flag
returns the discarded error leaving the book entry in place; otherwise the
batch runs, and on success the book entry for the id is assigned the nil
pointer, while on an abort the rollback ran and the entry is deleted. -/
def executeTransaction (s : Store) (transactionId : String) :
    Option (Except KVError (List String) × Store) :=
  match goMapGet s.transactions transactionId with
  | none => some (Except.error KVError.noTransactionInProgress, s)
  | some none => none
  | some (some t) =>
    if t.hasErrors then
      some (Except.error KVError.transactionDiscardedDueToPriorErrors, s)
    else
      match execLoop t.dbIndex t.commands s.storage t.originalValues [] with
      | none => none
      | some (LoopOutcome.aborted e st1 _) =>
        some (Except.error e,
          { s with storage := st1,
                   transactions := goMapDel s.transactions transactionId })
      | some (LoopOutcome.success results st1 _) =>
        some (Except.ok results,
          { s with storage := st1,
                   transactions := goMapSet s.transactions transactionId none })

/-! ### Rollback correctness machinery

Invariants maintained along the command loop, relative to the storage st0 as
it was when EXEC started: every captured pre-image equals the starting value
of its key, every key without a captured pre-image still holds its starting
value in the captured database, and the other databases are untouched. -/

def ovFaithful (st0 : MemoryStorage) (dbI : Nat)
    (ov : List (String × Option String)) : Prop :=
  ∀ k p, (k, p) ∈ ov → p = msGet st0 dbI k

def storUntouched (st0 st : MemoryStorage) (dbI : Nat)
    (ov : List (String × Option String)) : Prop :=
  ∀ k, goMapGet ov k = none → msGet st dbI k = msGet st0 dbI k

def otherDBsEq (st0 st : MemoryStorage) (dbI : Nat) : Prop :=
  ∀ j, j ≠ dbI → st.data j = st0.data j

/-- The keys a batch names through its mutating commands (the first argument
of each SET, DEL, INCR or INCRBY in the queue). -/
def namedKeys (cmds : List Command) : List String :=
  cmds.filterMap (fun c =>
    if c.name = "SET" ∨ c.name = "DEL" ∨ c.name = "INCR" ∨ c.name = "INCRBY"
    then c.args.head? else none)

/-! ### Wire layer dispatch (package server): two generations of the
connection handler exist in the repository; both are embedded. -/

/-- A Go value of static type any as produced by executeCommand. -/
inductive GoAny where
  | nil
  | str (s : String)
  | int (n : Int)
  deriving DecidableEq, Repr

/-- fmt.Sprint on the any results the handler prints. -/
def fmtSprint : GoAny → String
  | GoAny.nil => "<nil>"
  | GoAny.str s => s
  | GoAny.int n => toString n

/-- The Go error text of each error value (Error method output). -/
def errorMessage : KVError → String
  | KVError.intOverflow => "err increment or decrement would overflow"
  | KVError.noTransactionInProgress => "err no transaction in progress"
  | KVError.transactionInProgress => "err transaction already in progress"
  | KVError.notInteger => "err value is not an integer or out of range"
  | KVError.unknownCommand n => "err unknown command: " ++ n
  | KVError.selectInTransaction => "err SELECT is not allowed in transactions"
  | KVError.transactionDiscardedDueToPriorErrors =>
      "err Transaction discarded because of previous errors"
  | KVError.wrongArguments n => "wrong number of arguments for " ++ n ++ " command"

/-- Del of the single-database store generation the executeCommand handler
dispatches to. -/
def mapDel (m : List (String × String)) (k : String) : Nat × List (String × String) :=
  match goMapGet m k with
  | none => (0, m)
  | some _ => (1, goMapDel m k)

/-- Embeds executeCommand of the server package (the generation kept in the
repository without a file name): validate, then run the command against the
single-database store; a GET miss returns the Go nil with no error. none
models the unreachable panic of a too-short argument vector behind a passed
validation. -/
def executeCommand (db : List (String × String)) (command : String)
    (args : List String) : Option (Except KVError GoAny × List (String × String)) :=
  match validateCommand command args with
  | some e => some (Except.error e, db)
  | none =>
    if command = "SET" then
      match args with
      | k :: v :: _ => some (Except.ok (GoAny.str "OK"), goMapSet db k v)
      | _ => none
    else if command = "GET" then
      match args with
      | k :: _ =>
        match goMapGet db k with
        | none => some (Except.ok GoAny.nil, db)
        | some v => some (Except.ok (GoAny.str v), db)
      | _ => none
    else if command = "DEL" then
      match args with
      | k :: _ =>
        let r := mapDel db k
        some (Except.ok (GoAny.int (r.1 : Int)), r.2)
      | _ => none
    else if command = "INCR" then
      match args with
      | k :: _ =>
        match mapIncrBy db k 1 with
        | (Except.error e, m) => some (Except.error e, m)
        | (Except.ok n, m) => some (Except.ok (GoAny.int n), m)
      | _ => none
    else if command = "INCRBY" then
      match args with
      | k :: a1 :: _ =>
        match mapIncrBy db k ((goParseInt a1).getD 0) with
        | (Except.error e, m) => some (Except.error e, m)
        | (Except.ok n, m) => some (Except.ok (GoAny.int n), m)
      | _ => none
    else
      some (Except.error (KVError.unknownCommand command), db)

/-- The reply lines the executeCommand handler writes for one immediate
command: the error text, or fmt.Sprint of the result. -/
def respondLine (db : List (String × String)) (command : String)
    (args : List String) : Option (List String) :=
  match executeCommand db command args with
  | none => none
  | some (Except.error e, _) => some [errorMessage e]
  | some (Except.ok v, _) => some [fmtSprint v]

/-- Embeds the GET case of handleConnection in server/handler.go: the value
and presence flag are read, the nil token is written when the key is absent,
and then the value (the empty string for an absent key) is written
unconditionally as well, since the absent branch does not leave the case. -/
def handleGetReplies (db : List (String × String)) (key : String) : List String :=
  match goMapGet db key with
  | some v => [v]
  | none => ["nil", ""]

/-! ### Concrete fixtures used by the evaluation and witness theorems -/

def storC1 : MemoryStorage := newMemoryStorage 16

def tC1 : Transaction :=
  { commands := [{ name := "SET", args := ["a", "1"] }],
    originalValues := [], hasErrors := false, dbIndex := 0 }

def sC1 : Store :=
  { storage := storC1, transactions := [("1", some tC1)], clientDBIndices := [] }

def sC1after : Store :=
  match executeTransaction sC1 "1" with
  | some (_, s1) => s1
  | none => sC1

def storC2 : MemoryStorage :=
  { numDatabases := 16, data := fun j => if j = 0 then [("a", "5")] else [] }

def tC2 : Transaction :=
  { commands := [{ name := "SET", args := ["a", "9"] }],
    originalValues := [], hasErrors := true, dbIndex := 0 }

def sC2 : Store :=
  { storage := storC2, transactions := [("1", some tC2)], clientDBIndices := [] }

def tC3 : Transaction :=
  { commands := [{ name := "INCR", args := ["a"] },
                 { name := "SET", args := ["b", "b"] },
                 { name := "INCR", args := ["b"] }],
    originalValues := [], hasErrors := false, dbIndex := 0 }

def sC3 : Store :=
  { storage := { numDatabases := 16, data := fun j => if j = 0 then [("a", "1")] else [] },
    transactions := [("1", some tC3)],
    clientDBIndices := [] }

def sC3after : Store :=
  match executeTransaction sC3 "1" with
  | some (_, s1) => s1
  | none => sC3

def storC4 : MemoryStorage :=
  { numDatabases := 16,
    data := fun j => if j = 0 then [("k", "9223372036854775807")] else [] }

def tC5 : Transaction :=
  { commands := [{ name := "SET", args := ["x", "2"] },
                 { name := "SELECT", args := ["1"] }],
    originalValues := [], hasErrors := false, dbIndex := 2 }

def sC5 : Store :=
  { storage := { numDatabases := 16, data := fun j => if j = 2 then [("x", "1")] else [] },
    transactions := [("1", some tC5)],
    clientDBIndices := [] }

def storC7 : MemoryStorage :=
  { numDatabases := 16, data := fun j => if j = 0 then [("counter", "5")] else [] }

/-! ### Theorems -/

theorem goMapGet_goMapSet {β : Type} (m : List (String × β)) (k k1 : String) (v : β) :
    goMapGet (goMapSet m k v) k1 = if k = k1 then some v else goMapGet m k1 := by
  induction m with
  | nil =>
    by_cases h : k = k1 <;> simp [goMapGet, goMapSet, h]
  | cons p rest ih =>
    obtain ⟨kp, vp⟩ := p
    by_cases hp : kp = k
    · subst hp
      by_cases h : kp = k1 <;> simp [goMapGet, goMapSet, h]
    · by_cases h1 : kp = k1
      · subst h1
        have h2 : ¬ k = kp := fun hh => hp hh.symm
        simp [goMapGet, goMapSet, hp, h2]
      · simp [goMapGet, goMapSet, hp, h1, ih]

theorem goMapGet_goMapDel {β : Type} (m : List (String × β)) (k k1 : String) :
    goMapGet (goMapDel m k) k1 = if k = k1 then none else goMapGet m k1 := by
  induction m with
  | nil =>
    by_cases h : k = k1 <;> simp [goMapGet, goMapDel, h]
  | cons p rest ih =>
    obtain ⟨kp, vp⟩ := p
    by_cases hp : kp = k
    · subst hp
      by_cases h : kp = k1 <;> simp [goMapGet, goMapDel, h, ih] <;> simp [h] at ih <;>
        exact ih
    · by_cases h1 : kp = k1
      · subst h1
        have h2 : ¬ k = kp := fun hh => hp hh.symm
        simp [goMapGet, goMapDel, hp, h2]
      · simp [goMapGet, goMapDel, hp, h1, ih]

theorem mem_goMapSet {β : Type} (m : List (String × β)) (k : String) (v : β)
    (p : String × β) (hp : p ∈ goMapSet m k v) : p ∈ m ∨ p = (k, v) := by
  induction m with
  | nil => simp [goMapSet] at hp; simp [hp]
  | cons q rest ih =>
    obtain ⟨kq, vq⟩ := q
    by_cases hq : kq = k
    · subst hq
      simp [goMapSet] at hp
      rcases hp with hp | hp
      · right; simp [hp]
      · left; simp [hp]
    · simp [goMapSet, hq] at hp
      rcases hp with hp | hp
      · left; simp [hp]
      · rcases ih hp with h | h
        · left; simp [h]
        · right; exact h

theorem rangeCheck64_range (w v : Int) (h : rangeCheck64 w = some v) :
    minInt64 ≤ v ∧ v ≤ maxInt64 := by
  unfold rangeCheck64 at h
  split at h
  · rename_i hrange
    cases h
    exact hrange
  · exact absurd h (by simp)

theorem goParseIntCore_range (neg : Bool) (ds : List Char) (v : Int)
    (h : goParseIntCore neg ds = some v) : minInt64 ≤ v ∧ v ≤ maxInt64 := by
  unfold goParseIntCore at h
  split at h
  · exact absurd h (by simp)
  · split at h
    · exact rangeCheck64_range _ _ h
    · exact absurd h (by simp)

theorem goParseInt_range (s : String) (v : Int) (h : goParseInt s = some v) :
    minInt64 ≤ v ∧ v ≤ maxInt64 := by
  unfold goParseInt at h
  split at h <;> exact goParseIntCore_range _ _ _ h

theorem msGet_msSet (st : MemoryStorage) (i : Nat) (k k1 v : String) :
    msGet (msSet st i k v) i k1 = if k = k1 then some v else msGet st i k1 := by
  simp [msGet, msSet, goMapGet_goMapSet]

theorem msSet_data_ne (st : MemoryStorage) (i j : Nat) (k v : String) (h : j ≠ i) :
    (msSet st i k v).data j = st.data j := by
  simp [msSet, h]

theorem msGet_msDel (st : MemoryStorage) (i : Nat) (k k1 : String) :
    msGet (msDel st i k).2 i k1 = if k = k1 then none else msGet st i k1 := by
  unfold msDel
  cases hg : goMapGet (st.data i) k with
  | none =>
    by_cases h : k = k1
    · subst h; simp [msGet, hg]
    · simp [msGet, h]
  | some v => simp [msGet, goMapGet_goMapDel]

theorem msDel_data_ne (st : MemoryStorage) (i j : Nat) (k : String) (h : j ≠ i) :
    (msDel st i k).2.data j = st.data j := by
  unfold msDel
  cases goMapGet (st.data i) k <;> simp [h]

theorem msIncrBy_get_ne (st : MemoryStorage) (i : Nat) (k k1 : String) (inc : Int)
    (h : k ≠ k1) : msGet (msIncrBy st i k inc).2 i k1 = msGet st i k1 := by
  unfold msIncrBy mapIncrBy
  cases hg : goMapGet (st.data i) k with
  | none =>
    cases hc : checkIntegerOverflow 0 inc <;>
      simp [msGet, hg, hc, goMapGet_goMapSet, h]
  | some v =>
    cases hp : goParseInt v with
    | none => simp [msGet, hg, hp]
    | some cur =>
      cases hc : checkIntegerOverflow cur inc <;>
        simp [msGet, hg, hp, hc, goMapGet_goMapSet, h]

theorem msIncrBy_data_ne (st : MemoryStorage) (i j : Nat) (k : String) (inc : Int)
    (h : j ≠ i) : (msIncrBy st i k inc).2.data j = st.data j := by
  unfold msIncrBy mapIncrBy
  cases hg : goMapGet (st.data i) k with
  | none =>
    cases hc : checkIntegerOverflow 0 inc <;> simp [hg, hc, h]
  | some v =>
    cases hp : goParseInt v with
    | none => simp [hg, hp]
    | some cur =>
      cases hc : checkIntegerOverflow cur inc <;> simp [hg, hp, hc, h]

theorem msIncrBy_error_storage (st : MemoryStorage) (i : Nat) (k : String) (inc : Int)
    (e : KVError) (h : (msIncrBy st i k inc).1 = Except.error e) :
    (msIncrBy st i k inc).2 = st := by
  unfold msIncrBy mapIncrBy at h ⊢
  cases hg : goMapGet (st.data i) k with
  | none =>
    cases hc : checkIntegerOverflow 0 inc <;> simp [hg, hc] at h ⊢
  | some v =>
    cases hp : goParseInt v with
    | none => simp [hg, hp]
    | some cur =>
      cases hc : checkIntegerOverflow cur inc <;> simp [hg, hp, hc] at h ⊢

theorem save_isSome (st : MemoryStorage) (dbI : Nat)
    (ov : List (String × Option String)) (k : String) :
    (goMapGet (saveOriginalValue st dbI ov k) k).isSome := by
  unfold saveOriginalValue
  cases hg : goMapGet ov k with
  | some p => simp [hg]
  | none => simp [hg, goMapGet_goMapSet]

theorem mem_save (st : MemoryStorage) (dbI : Nat)
    (ov : List (String × Option String)) (k : String) (q : String × Option String)
    (hq : q ∈ saveOriginalValue st dbI ov k) :
    q ∈ ov ∨ (q = (k, msGet st dbI k) ∧ goMapGet ov k = none) := by
  unfold saveOriginalValue at hq
  cases hg : goMapGet ov k with
  | some p =>
    rw [hg] at hq
    exact Or.inl hq
  | none =>
    rw [hg] at hq
    rcases mem_goMapSet _ _ _ _ hq with h | h
    · exact Or.inl h
    · exact Or.inr ⟨h, hg ▸ rfl⟩

theorem get_save_none (st : MemoryStorage) (dbI : Nat)
    (ov : List (String × Option String)) (k k1 : String)
    (h : goMapGet (saveOriginalValue st dbI ov k) k1 = none) :
    goMapGet ov k1 = none := by
  unfold saveOriginalValue at h
  cases hg : goMapGet ov k with
  | some p =>
    rw [hg] at h
    exact h
  | none =>
    rw [hg] at h
    by_cases hk : k = k1
    · subst hk
      simp [goMapGet_goMapSet] at h
    · rw [goMapGet_goMapSet] at h
      simpa [hk] using h

theorem save_faithful (st0 st : MemoryStorage) (dbI : Nat)
    (ov : List (String × Option String)) (k : String)
    (hF : ovFaithful st0 dbI ov) (hU : storUntouched st0 st dbI ov) :
    ovFaithful st0 dbI (saveOriginalValue st dbI ov k) := by
  intro k1 p1 hmem
  rcases mem_save st dbI ov k _ hmem with h | ⟨heq, habs⟩
  · exact hF k1 p1 h
  · rw [Prod.mk.injEq] at heq
    obtain ⟨h1, h2⟩ := heq
    subst h1
    subst h2
    exact hU k1 habs

theorem save_untouched (st0 st : MemoryStorage) (dbI : Nat)
    (ov : List (String × Option String)) (k : String)
    (hU : storUntouched st0 st dbI ov) :
    storUntouched st0 st dbI (saveOriginalValue st dbI ov k) := by
  intro k1 h1
  exact hU k1 (get_save_none st dbI ov k k1 h1)

theorem rollbackSelective_restores (dbI : Nat) (st0 : MemoryStorage) :
    ∀ (ov : List (String × Option String)) (st : MemoryStorage),
      ovFaithful st0 dbI ov → storUntouched st0 st dbI ov → otherDBsEq st0 st dbI →
      (∀ k, msGet (rollbackSelective dbI ov st) dbI k = msGet st0 dbI k) ∧
        otherDBsEq st0 (rollbackSelective dbI ov st) dbI := by
  intro ov
  induction ov with
  | nil =>
    intro st hF hU hO
    exact ⟨fun k => hU k rfl, hO⟩
  | cons q rest ih =>
    obtain ⟨k0, p0⟩ := q
    intro st hF hU hO
    have hp0 : p0 = msGet st0 dbI k0 := hF k0 p0 (by simp)
    have hFr : ovFaithful st0 dbI rest := by
      intro k p hmem
      exact hF k p (by simp [hmem])
    cases p0 with
    | none =>
      have hUr : storUntouched st0 (msDel st dbI k0).2 dbI rest := by
        intro k hk
        by_cases hk0 : k0 = k
        · subst hk0
          rw [msGet_msDel]
          simp [hp0.symm]
        · rw [msGet_msDel]
          have hcons : goMapGet ((k0, (none : Option String)) :: rest) k = none := by
            simp [goMapGet, hk0, hk]
          simp [hk0, hU k hcons]
      have hOr : otherDBsEq st0 (msDel st dbI k0).2 dbI := by
        intro j hj
        rw [msDel_data_ne st dbI j k0 hj]
        exact hO j hj
      exact ih (msDel st dbI k0).2 hFr hUr hOr
    | some v =>
      have hUr : storUntouched st0 (msSet st dbI k0 v) dbI rest := by
        intro k hk
        by_cases hk0 : k0 = k
        · subst hk0
          rw [msGet_msSet]
          simp [hp0.symm]
        · rw [msGet_msSet]
          have hcons : goMapGet ((k0, some v) :: rest) k = none := by
            simp [goMapGet, hk0, hk]
          simp [hk0, hU k hcons]
      have hOr : otherDBsEq st0 (msSet st dbI k0 v) dbI := by
        intro j hj
        rw [msSet_data_ne st dbI j k0 v hj]
        exact hO j hj
      exact ih (msSet st dbI k0 v) hFr hUr hOr

theorem inv_after_mut (st0 st st1 : MemoryStorage) (dbI : Nat)
    (ov : List (String × Option String)) (a0 : String)
    (hF : ovFaithful st0 dbI ov) (hU : storUntouched st0 st dbI ov)
    (hO : otherDBsEq st0 st dbI)
    (hget : ∀ k1, a0 ≠ k1 → msGet st1 dbI k1 = msGet st dbI k1)
    (hdata : ∀ j, j ≠ dbI → st1.data j = st.data j) :
    ovFaithful st0 dbI (saveOriginalValue st dbI ov a0) ∧
      storUntouched st0 st1 dbI (saveOriginalValue st dbI ov a0) ∧
      otherDBsEq st0 st1 dbI := by
  refine ⟨save_faithful st0 st dbI ov a0 hF hU, ?_, ?_⟩
  · intro k1 hk1
    have hov : goMapGet ov k1 = none := get_save_none st dbI ov a0 k1 hk1
    have hne : a0 ≠ k1 := by
      intro he
      subst he
      have hs := save_isSome st dbI ov a0
      rw [hk1] at hs
      simp at hs
    rw [hget k1 hne]
    exact hU k1 hov
  · intro j hj
    rw [hdata j hj]
    exact hO j hj

theorem execCommand_ok_inv (dbI : Nat) (st0 st : MemoryStorage)
    (ov : List (String × Option String)) (c : Command) (r : String)
    (st1 : MemoryStorage) (ov1 : List (String × Option String))
    (hF : ovFaithful st0 dbI ov) (hU : storUntouched st0 st dbI ov)
    (hO : otherDBsEq st0 st dbI)
    (hstep : execCommand dbI st ov c = some (StepResult.ok r st1 ov1)) :
    ovFaithful st0 dbI ov1 ∧ storUntouched st0 st1 dbI ov1 ∧
      otherDBsEq st0 st1 dbI := by
  unfold execCommand at hstep
  split at hstep
  · -- SET
    split at hstep
    · rename_i a0 a1 tail hargs
      simp only [Option.some.injEq, StepResult.ok.injEq] at hstep
      obtain ⟨hr, hst, hov⟩ := hstep
      subst hst
      subst hov
      exact inv_after_mut st0 st _ dbI ov a0 hF hU hO
        (fun k1 hk1 => by rw [msGet_msSet]; simp [hk1])
        (fun j hj => msSet_data_ne st dbI j a0 a1 hj)
    · exact Option.noConfusion hstep
  · split at hstep
    · -- GET
      split at hstep
      · rename_i a0 tail hargs
        split at hstep <;>
        · simp only [Option.some.injEq, StepResult.ok.injEq] at hstep
          obtain ⟨hr, hst, hov⟩ := hstep
          subst hst
          subst hov
          exact ⟨hF, hU, hO⟩
      · exact Option.noConfusion hstep
    · split at hstep
      · -- DEL
        split at hstep
        · rename_i a0 tail hargs
          simp only [Option.some.injEq, StepResult.ok.injEq] at hstep
          obtain ⟨hr, hst, hov⟩ := hstep
          subst hst
          subst hov
          exact inv_after_mut st0 st _ dbI ov a0 hF hU hO
            (fun k1 hk1 => by rw [msGet_msDel]; simp [hk1])
            (fun j hj => msDel_data_ne st dbI j a0 hj)
        · exact Option.noConfusion hstep
      · split at hstep
        · -- INCR
          split at hstep
          · rename_i a0 tail hargs
            split at hstep
            · simp at hstep
            · rename_i n st1x heq
              simp only [Option.some.injEq, StepResult.ok.injEq] at hstep
              obtain ⟨hr, hst, hov⟩ := hstep
              subst hst
              subst hov
              refine inv_after_mut st0 st _ dbI ov a0 hF hU hO ?_ ?_
              · intro k1 hk1
                have h := msIncrBy_get_ne st dbI a0 k1 1 hk1
                rw [heq] at h
                exact h
              · intro j hj
                have h := msIncrBy_data_ne st dbI j a0 1 hj
                rw [heq] at h
                exact h
          · exact Option.noConfusion hstep
        · split at hstep
          · -- INCRBY
            split at hstep
            · rename_i a0 a1 tail hargs
              split at hstep
              · simp at hstep
              · rename_i inc hparse
                split at hstep
                · simp at hstep
                · rename_i n st1x heq
                  simp only [Option.some.injEq, StepResult.ok.injEq] at hstep
                  obtain ⟨hr, hst, hov⟩ := hstep
                  subst hst
                  subst hov
                  refine inv_after_mut st0 st _ dbI ov a0 hF hU hO ?_ ?_
                  · intro k1 hk1
                    have h := msIncrBy_get_ne st dbI a0 k1 inc hk1
                    rw [heq] at h
                    exact h
                  · intro j hj
                    have h := msIncrBy_data_ne st dbI j a0 inc hj
                    rw [heq] at h
                    exact h
            · exact Option.noConfusion hstep
          · split at hstep
            · -- COMPACT
              simp only [Option.some.injEq, StepResult.ok.injEq] at hstep
              obtain ⟨hr, hst, hov⟩ := hstep
              subst hst
              subst hov
              exact ⟨hF, hU, hO⟩
            · split at hstep
              · -- SELECT
                simp at hstep
              · -- unknown
                simp at hstep

theorem execCommand_fail_inv (dbI : Nat) (st0 st : MemoryStorage)
    (ov : List (String × Option String)) (c : Command) (e : KVError)
    (ov1 : List (String × Option String))
    (hF : ovFaithful st0 dbI ov) (hU : storUntouched st0 st dbI ov)
    (hstep : execCommand dbI st ov c = some (StepResult.fail e ov1)) :
    ovFaithful st0 dbI ov1 ∧ storUntouched st0 st dbI ov1 := by
  unfold execCommand at hstep
  split at hstep
  · -- SET
    split at hstep
    · simp at hstep
    · exact Option.noConfusion hstep
  · split at hstep
    · -- GET
      split at hstep
      · split at hstep <;> simp at hstep
      · exact Option.noConfusion hstep
    · split at hstep
      · -- DEL
        split at hstep
        · simp at hstep
        · exact Option.noConfusion hstep
      · split at hstep
        · -- INCR
          split at hstep
          · rename_i a0 tail hargs
            split at hstep
            · rename_i e1 snd1 heq
              simp only [Option.some.injEq, StepResult.fail.injEq] at hstep
              obtain ⟨he, hov⟩ := hstep
              subst hov
              exact ⟨save_faithful st0 st dbI ov a0 hF hU,
                     save_untouched st0 st dbI ov a0 hU⟩
            · simp at hstep
          · exact Option.noConfusion hstep
        · split at hstep
          · -- INCRBY
            split at hstep
            · rename_i a0 a1 tail hargs
              split at hstep
              · simp only [Option.some.injEq, StepResult.fail.injEq] at hstep
                obtain ⟨he, hov⟩ := hstep
                subst hov
                exact ⟨hF, hU⟩
              · rename_i inc hparse
                split at hstep
                · rename_i e1 snd1 heq
                  simp only [Option.some.injEq, StepResult.fail.injEq] at hstep
                  obtain ⟨he, hov⟩ := hstep
                  subst hov
                  exact ⟨save_faithful st0 st dbI ov a0 hF hU,
                         save_untouched st0 st dbI ov a0 hU⟩
                · simp at hstep
            · exact Option.noConfusion hstep
          · split at hstep
            · -- COMPACT
              simp at hstep
            · split at hstep
              · -- SELECT
                simp only [Option.some.injEq, StepResult.fail.injEq] at hstep
                obtain ⟨he, hov⟩ := hstep
                subst hov
                exact ⟨hF, hU⟩
              · -- unknown
                simp only [Option.some.injEq, StepResult.fail.injEq] at hstep
                obtain ⟨he, hov⟩ := hstep
                subst hov
                exact ⟨hF, hU⟩

theorem execLoop_restores (dbI : Nat) (st0 : MemoryStorage) :
    ∀ (cmds : List Command) (st : MemoryStorage)
      (ov : List (String × Option String)) (acc : List String),
      ovFaithful st0 dbI ov → storUntouched st0 st dbI ov →
      otherDBsEq st0 st dbI →
      (∀ e st1 ov1, execLoop dbI cmds st ov acc = some (LoopOutcome.aborted e st1 ov1) →
        (∀ k, msGet st1 dbI k = msGet st0 dbI k) ∧ otherDBsEq st0 st1 dbI) ∧
      (∀ r st1 ov1, execLoop dbI cmds st ov acc = some (LoopOutcome.success r st1 ov1) →
        ovFaithful st0 dbI ov1 ∧ storUntouched st0 st1 dbI ov1 ∧
          otherDBsEq st0 st1 dbI) := by
  intro cmds
  induction cmds with
  | nil =>
    intro st ov acc hF hU hO
    constructor
    · intro e st1 ov1 h
      exact absurd h (by simp [execLoop])
    · intro r st1 ov1 h
      simp only [execLoop, Option.some.injEq, LoopOutcome.success.injEq] at h
      obtain ⟨hr, hst, hov⟩ := h
      subst hst
      subst hov
      exact ⟨hF, hU, hO⟩
  | cons c rest ih =>
    intro st ov acc hF hU hO
    cases hstep : execCommand dbI st ov c with
    | none =>
      constructor
      · intro e st1 ov1 h
        rw [execLoop, hstep] at h
        exact absurd h (by simp)
      · intro r st1 ov1 h
        rw [execLoop, hstep] at h
        exact absurd h (by simp)
    | some sr =>
      cases sr with
      | fail e1 ovx =>
        have hinv := execCommand_fail_inv dbI st0 st ov c e1 ovx hF hU hstep
        constructor
        · intro e st1 ov1 h
          rw [execLoop, hstep] at h
          simp only [Option.some.injEq, LoopOutcome.aborted.injEq] at h
          obtain ⟨he, hst, hov⟩ := h
          subst hst
          exact rollbackSelective_restores dbI st0 ovx st hinv.1 hinv.2 hO
        · intro r st1 ov1 h
          rw [execLoop, hstep] at h
          exact absurd h (by simp)
      | ok r1 stx ovx =>
        have hinv := execCommand_ok_inv dbI st0 st ov c r1 stx ovx hF hU hO hstep
        have hrec := ih stx ovx (acc ++ [r1]) hinv.1 hinv.2.1 hinv.2.2
        constructor
        · intro e st1 ov1 h
          rw [execLoop, hstep] at h
          exact hrec.1 e st1 ov1 h
        · intro r st1 ov1 h
          rw [execLoop, hstep] at h
          exact hrec.2 r st1 ov1 h

theorem execLoop_append (dbI : Nat) (l1 l2 : List Command) :
    ∀ (st : MemoryStorage) (ov : List (String × Option String)) (acc : List String),
      execLoop dbI (l1 ++ l2) st ov acc =
        match execLoop dbI l1 st ov acc with
        | some (LoopOutcome.success r st1 ov1) => execLoop dbI l2 st1 ov1 r
        | other => other := by
  induction l1 with
  | nil =>
    intro st ov acc
    simp [execLoop]
  | cons c rest ih =>
    intro st ov acc
    rw [List.cons_append, execLoop]
    cases hstep : execCommand dbI st ov c with
    | none => simp [execLoop, hstep]
    | some sr =>
      cases sr with
      | fail e ov1 => simp [execLoop, hstep]
      | ok r st1 ov1 => simp [execLoop, hstep, ih]

theorem checkIntegerOverflow_cases (cur inc : Int) :
    checkIntegerOverflow cur inc = none ∨
      checkIntegerOverflow cur inc = some KVError.intOverflow := by
  unfold checkIntegerOverflow
  split_ifs <;> simp

theorem checkIntegerOverflow_spec (cur inc : Int)
    (hcur : minInt64 ≤ cur ∧ cur ≤ maxInt64)
    (hinc : minInt64 ≤ inc ∧ inc ≤ maxInt64) :
    (checkIntegerOverflow cur inc = some KVError.intOverflow ↔
      (inc > 0 ∧ cur > maxInt64 - inc) ∨ (inc < 0 ∧ cur < minInt64 - inc)) ∧
    (checkIntegerOverflow cur inc = some KVError.intOverflow ↔
      ¬ (minInt64 ≤ cur + inc ∧ cur + inc ≤ maxInt64)) := by
  obtain ⟨hc1, hc2⟩ := hcur
  obtain ⟨hi1, hi2⟩ := hinc
  simp only [minInt64, maxInt64] at hc1 hc2 hi1 hi2
  unfold checkIntegerOverflow minInt64 maxInt64
  by_cases h1 : inc > 0 ∧ cur > (9223372036854775807 : Int) - inc
  · rw [if_pos h1]
    refine ⟨by simp [h1], ?_⟩
    constructor
    · intro _
      omega
    · intro _
      rfl
  · rw [if_neg h1]
    by_cases h2 : inc < 0 ∧ cur < (-9223372036854775808 : Int) - inc
    · rw [if_pos h2]
      refine ⟨by simp [h2], ?_⟩
      constructor
      · intro _
        omega
      · intro _
        rfl
    · rw [if_neg h2]
      constructor
      · simp [h1, h2]
      · constructor
        · intro hfalse
          exact absurd hfalse (by simp)
        · intro hnr
          exfalso
          push_neg at h1 h2
          omega

theorem goToUpper_ne_empty (s : String) (h : s ≠ "") : goToUpper s ≠ "" := by
  intro he
  apply h
  have hdata : s.data.map Char.toUpper = [] := congrArg String.data he
  have hnil : s.data = [] := by
    cases hd : s.data with
    | nil => rfl
    | cons c cs => rw [hd] at hdata; simp at hdata
  cases s with
  | mk l =>
    exact congrArg String.mk hnil

theorem tokenizeLoop_nonempty :
    ∀ (cs : List Char) (args : List String) (curr : String) (q e : Bool),
      (∀ a ∈ args, a ≠ "") →
      ∀ a ∈ (tokenizeLoop cs args curr q e).1, a ≠ "" := by
  intro cs
  induction cs with
  | nil =>
    intro args curr q e hargs a ha
    rw [tokenizeLoop] at ha
    by_cases hc : curr.length > 0
    · rw [if_pos hc] at ha
      rcases List.mem_append.mp ha with h | h
      · exact hargs a h
      · have : a = curr := by simpa using h
        subst this
        intro h0
        subst h0
        simp at hc
    · rw [if_neg hc] at ha
      exact hargs a ha
  | cons c rest ih =>
    intro args curr q e hargs a ha
    rw [tokenizeLoop] at ha
    split at ha
    · exact ih args (curr.push c) q false hargs a ha
    · split at ha
      · exact ih args curr q true hargs a ha
      · split at ha
        · exact ih args curr (!q) e hargs a ha
        · split at ha
          · split at ha
            · rename_i hc
              refine ih (args ++ [curr]) "" q e ?_ a ha
              intro b hb
              rcases List.mem_append.mp hb with h | h
              · exact hargs b h
              · have : b = curr := by simpa using h
                subst this
                intro h0
                subst h0
                simp at hc
            · exact ih args curr q e hargs a ha
          · exact ih args (curr.push c) q e hargs a ha

/-- C1: evaluation of the code at the failing input. A one-command
transaction for session 1 executes fully and successfully (result OK), yet
afterwards the transaction is still in the book: InTransaction is true, a
subsequent MULTI fails with TransactionInProgress, and queueing panics on
the stored nil pointer. The successful branch of ExecuteTransaction assigns
nil to the book entry instead of deleting it, contradicting the claim. -/
theorem exec_success_leaves_nil_entry :
    (executeTransaction sC1 "1").map Prod.fst = some (Except.ok ["OK"]) ∧
    inTransaction sC1after "1" = true ∧
    (startTransaction sC1after "1").1 = Except.error KVError.transactionInProgress ∧
    queueCommand sC1after "1" "GET" ["a"] = none := by
  exact ⟨rfl, rfl, rfl, rfl⟩

/-- C2: evaluation of the code at the failing input. A transaction for
session 1 with the has-errors flag set: ExecuteTransaction returns the
discarded-due-to-prior-errors error and applies no mutation (the whole store
is returned unchanged), but the transaction is not removed from the book:
InTransaction is still true, contradicting the removal part of the claim. -/
theorem exec_hasErrors_keeps_entry :
    executeTransaction sC2 "1" =
      some (Except.error KVError.transactionDiscardedDueToPriorErrors, sC2) ∧
    inTransaction sC2 "1" = true ∧
    msGet sC2.storage 0 "a" = some "5" := by
  exact ⟨rfl, rfl, rfl⟩

/-- C6: evaluation of the two wire layers at the failing input. The
handler.go GET branch replies with two lines for an absent key, the nil
token and then the empty value, because the absent branch falls through;
the executeCommand based handler replies with the single absent-sentinel
line the claim (and the server tests) describe. -/
theorem get_absent_reply_lines :
    handleGetReplies [] "missing" = ["nil", ""] ∧
    (handleGetReplies [] "missing").length ≠ 1 ∧
    respondLine [] "GET" ["missing"] = some ["<nil>"] := by
  exact ⟨rfl, by decide, rfl⟩

/-- C9: immediately after Set(i, k, v), Get(i, k) returns the value with the
presence flag, for every database index in range. -/
theorem set_then_get (st : MemoryStorage) (i : Nat) (k v : String)
    (hi : i < st.numDatabases) : msGet (msSet st i k v) i k = some v := by
  rw [msGet_msSet]
  simp

/-- Witness for set_then_get at a concrete storage, index and pair. -/
theorem set_then_get_witness :
    0 < (newMemoryStorage 16).numDatabases ∧
    msGet (msSet (newMemoryStorage 16) 0 "name" "gandalf") 0 "name" = some "gandalf" :=
  ⟨by decide, set_then_get (newMemoryStorage 16) 0 "name" "gandalf" (by decide)⟩

/-- Reduction of ExecuteTransaction for a session whose book entry holds an
actual transaction record. -/
theorem executeTransaction_booked (s : Store) (sid : String) (t : Transaction)
    (ht : goMapGet s.transactions sid = some (some t)) :
    executeTransaction s sid =
      if t.hasErrors then
        some (Except.error KVError.transactionDiscardedDueToPriorErrors, s)
      else
        match execLoop t.dbIndex t.commands s.storage t.originalValues [] with
        | none => none
        | some (LoopOutcome.aborted e st1 _) =>
          some (Except.error e,
            { s with storage := st1, transactions := goMapDel s.transactions sid })
        | some (LoopOutcome.success results st1 _) =>
          some (Except.ok results,
            { s with storage := st1, transactions := goMapSet s.transactions sid none }) := by
  unfold executeTransaction
  rw [ht]

/-- C4: for a stored value parsing to cur and an int64 delta, IncrBy reports
Overflow exactly under the pre-addition guard of checkIntegerOverflow, that
guard is exactly equivalent to the sum leaving the signed 64-bit range (the
check is wraparound-free), and on overflow the storage is unchanged. -/
theorem incrBy_overflow_spec (st : MemoryStorage) (i : Nat) (k s : String)
    (cur delta : Int)
    (hi : i < st.numDatabases)
    (hk : msGet st i k = some s) (hs : goParseInt s = some cur)
    (hdelta : minInt64 ≤ delta ∧ delta ≤ maxInt64) :
    ((msIncrBy st i k delta).1 = Except.error KVError.intOverflow ↔
      (delta > 0 ∧ cur > maxInt64 - delta) ∨ (delta < 0 ∧ cur < minInt64 - delta)) ∧
    ((msIncrBy st i k delta).1 = Except.error KVError.intOverflow ↔
      ¬ (minInt64 ≤ cur + delta ∧ cur + delta ≤ maxInt64)) ∧
    ((msIncrBy st i k delta).1 = Except.error KVError.intOverflow →
      (msIncrBy st i k delta).2 = st) := by
  have hcur := goParseInt_range s cur hs
  have hspec := checkIntegerOverflow_spec cur delta hcur hdelta
  have hk2 : goMapGet (st.data i) k = some s := hk
  rcases checkIntegerOverflow_cases cur delta with hc | hc
  · have hval : msIncrBy st i k delta =
        (Except.ok (cur + delta),
         { st with data := fun j => if j = i then
             goMapSet (st.data i) k (goFormatInt (cur + delta)) else st.data j }) := by
      simp only [msIncrBy, mapIncrBy, hk2, hs, hc]
    rw [hc] at hspec
    have hA : ¬ ((delta > 0 ∧ cur > maxInt64 - delta) ∨
        (delta < 0 ∧ cur < minInt64 - delta)) := by
      intro h
      exact absurd (hspec.1.mpr h) (by simp)
    have hB : minInt64 ≤ cur + delta ∧ cur + delta ≤ maxInt64 := by
      by_contra h
      exact absurd (hspec.2.mpr h) (by simp)
    rw [hval]
    refine ⟨by simp [hA], by simp [hB], ?_⟩
    intro hfalse
    simp at hfalse
  · have hval : msIncrBy st i k delta = (Except.error KVError.intOverflow, st) := by
      simp only [msIncrBy, mapIncrBy, hk2, hs, hc]
    rw [hc] at hspec
    have hA := hspec.1.mp rfl
    have hB := hspec.2.mp rfl
    rw [hval]
    exact ⟨by simp [hA], by simp [hB], fun _ => rfl⟩

/-- Witness for incrBy_overflow_spec: with the key stored as MAX_INT64,
IncrBy by 1 fails with Overflow and Get still returns MAX_INT64. -/
theorem incrBy_overflow_spec_witness :
    (msIncrBy storC4 0 "k" 1).1 = Except.error KVError.intOverflow ∧
    msGet (msIncrBy storC4 0 "k" 1).2 0 "k" = some "9223372036854775807" := by
  have h := incrBy_overflow_spec storC4 0 "k" "9223372036854775807" maxInt64 1
    (by decide) rfl rfl (by decide)
  have herr := h.1.mpr (Or.inl ⟨by decide, by decide⟩)
  have hunch := h.2.2 herr
  refine ⟨herr, ?_⟩
  rw [hunch]
  rfl

/-- C7: IncrBy treats an absent key as 0 (storing the formatted delta and
returning it), returns NotInteger leaving the store untouched when a stored
value does not parse as int64, and on success returns the sum and stores it
as its decimal string, so that Get returns str(cur + delta). -/
theorem incrBy_basic_spec (st : MemoryStorage) (i : Nat) (k : String) (d : Int)
    (hi : i < st.numDatabases) (hd : minInt64 ≤ d ∧ d ≤ maxInt64) :
    (msGet st i k = none →
      (msIncrBy st i k d).1 = Except.ok d ∧
      msGet (msIncrBy st i k d).2 i k = some (goFormatInt d)) ∧
    (∀ s, msGet st i k = some s → goParseInt s = none →
      msIncrBy st i k d = (Except.error KVError.notInteger, st)) ∧
    (∀ s cur, msGet st i k = some s → goParseInt s = some cur →
      checkIntegerOverflow cur d = none →
      (msIncrBy st i k d).1 = Except.ok (cur + d) ∧
      msGet (msIncrBy st i k d).2 i k = some (goFormatInt (cur + d))) := by
  refine ⟨?_, ?_, ?_⟩
  · intro habs
    have habs2 : goMapGet (st.data i) k = none := habs
    have hc : checkIntegerOverflow 0 d = none := by
      obtain ⟨h1, h2⟩ := hd
      simp only [minInt64, maxInt64] at h1 h2
      unfold checkIntegerOverflow minInt64 maxInt64
      have hA : ¬ (d > 0 ∧ (0 : Int) > 9223372036854775807 - d) := by omega
      have hB : ¬ (d < 0 ∧ (0 : Int) < -9223372036854775808 - d) := by omega
      rw [if_neg hA, if_neg hB]
    have hval : msIncrBy st i k d =
        (Except.ok (0 + d),
         { st with data := fun j => if j = i then
             goMapSet (st.data i) k (goFormatInt (0 + d)) else st.data j }) := by
      simp only [msIncrBy, mapIncrBy, habs2, hc]
    rw [hval]
    constructor
    · simp
    · simp [msGet, goMapGet_goMapSet]
  · intro s hk hp
    have hk2 : goMapGet (st.data i) k = some s := hk
    simp only [msIncrBy, mapIncrBy, hk2, hp]
  · intro s cur hk hp hc
    have hk2 : goMapGet (st.data i) k = some s := hk
    have hval : msIncrBy st i k d =
        (Except.ok (cur + d),
         { st with data := fun j => if j = i then
             goMapSet (st.data i) k (goFormatInt (cur + d)) else st.data j }) := by
      simp only [msIncrBy, mapIncrBy, hk2, hp, hc]
    rw [hval]
    constructor
    · rfl
    · simp [msGet, goMapGet_goMapSet]

/-- Witness for incrBy_basic_spec: 5 incremented by 9 gives 14 and stores
the string 14; an absent key incremented by 7 gives 7. -/
theorem incrBy_basic_spec_witness :
    ((msIncrBy storC7 0 "counter" 9).1 = Except.ok 14 ∧
     msGet (msIncrBy storC7 0 "counter" 9).2 0 "counter" = some "14") ∧
    (msIncrBy storC7 0 "missing" 7).1 = Except.ok 7 := by
  have h := incrBy_basic_spec storC7 0 "counter" 9 (by decide) (by decide)
  have h2 := incrBy_basic_spec storC7 0 "missing" 7 (by decide) (by decide)
  have h3 := h.2.2 "5" 5 rfl rfl (by decide)
  refine ⟨⟨h3.1, ?_⟩, (h2.1 rfl).1⟩
  rw [h3.2]
  rfl

/-- C3: when ExecuteTransaction returns an error for a booked transaction
whose original-values map starts empty (as MULTI creates it), every key in
the captured database index holds its pre-EXEC value again, in particular
every key the batch named through SET, DEL, INCR or INCRBY; the error return
carries no result sequence. -/
theorem exec_abort_restores (s : Store) (sid : String) (t : Transaction)
    (e : KVError) (s1 : Store)
    (ht : goMapGet s.transactions sid = some (some t))
    (hov : t.originalValues = [])
    (hx : executeTransaction s sid = some (Except.error e, s1)) :
    ∀ k, k ∈ namedKeys t.commands →
      msGet s1.storage t.dbIndex k = msGet s.storage t.dbIndex k := by
  rw [executeTransaction_booked s sid t ht] at hx
  by_cases hErr : t.hasErrors = true
  · rw [if_pos hErr] at hx
    simp only [Option.some.injEq, Prod.mk.injEq] at hx
    obtain ⟨hres, hs1⟩ := hx
    subst hs1
    intro k _
    rfl
  · rw [if_neg hErr, hov] at hx
    cases hloop : execLoop t.dbIndex t.commands s.storage [] [] with
    | none =>
      rw [hloop] at hx
      exact Option.noConfusion hx
    | some out =>
      rw [hloop] at hx
      cases out with
      | success r st1 ov1 => simp at hx
      | aborted e2 st1 ov1 =>
        simp only [Option.some.injEq, Prod.mk.injEq] at hx
        obtain ⟨hres, hs1⟩ := hx
        subst hs1
        have hres2 := (execLoop_restores t.dbIndex s.storage t.commands s.storage [] []
          (by intro k p hmem; simp at hmem)
          (by intro k _; rfl)
          (by intro j _; rfl)).1 e2 st1 ov1 hloop
        intro k _
        exact hres2.1 k

/-- Witness for exec_abort_restores: the batch INCR a, SET b b, INCR b on a
database holding a as 1 aborts at the second INCR with NotInteger; the named
keys a and b read back their pre-EXEC values. -/
theorem exec_abort_restores_witness :
    msGet sC3after.storage 0 "a" = msGet sC3.storage 0 "a" ∧
    msGet sC3after.storage 0 "b" = msGet sC3.storage 0 "b" := by
  have h := exec_abort_restores sC3 "1" tC3 KVError.notInteger sC3after rfl rfl rfl
  exact ⟨h "a" (by decide), h "b" (by decide)⟩

/-- C5: conjunction of the captured-index properties. A transaction started
by MULTI records the db index of the session at that moment; EXEC is
insensitive to the client db index map, so changing the index after MULTI
cannot affect it; every database other than the captured one is untouched by
EXEC; and when the loop reaches a queued SELECT after a successful prefix,
EXEC aborts with SelectInTransaction and the captured database reads back
its pre-EXEC values. -/
theorem exec_uses_captured_db :
    (∀ (s : Store) (sid : String), inTransaction s sid = false →
      goMapGet (startTransaction s sid).2.transactions sid =
        some (some { commands := [], originalValues := [], hasErrors := false,
                     dbIndex := getClientDBIndex s sid })) ∧
    (∀ (s : Store) (sid : String) (m : List (String × Nat)),
      executeTransaction { s with clientDBIndices := m } sid =
        (executeTransaction s sid).map
          (fun r => (r.1, { r.2 with clientDBIndices := m }))) ∧
    (∀ (s : Store) (sid : String) (t : Transaction)
       (res : Except KVError (List String)) (s1 : Store),
      goMapGet s.transactions sid = some (some t) →
      t.originalValues = [] →
      executeTransaction s sid = some (res, s1) →
      ∀ j, j ≠ t.dbIndex → s1.storage.data j = s.storage.data j) ∧
    (∀ (s : Store) (sid : String) (t : Transaction) (pre rest : List Command)
       (args : List String) (r1 : List String) (st1 : MemoryStorage)
       (ov1 : List (String × Option String)),
      goMapGet s.transactions sid = some (some t) →
      t.hasErrors = false →
      t.originalValues = [] →
      t.commands = pre ++ { name := "SELECT", args := args } :: rest →
      execLoop t.dbIndex pre s.storage [] [] = some (LoopOutcome.success r1 st1 ov1) →
      ∃ s1, executeTransaction s sid =
          some (Except.error KVError.selectInTransaction, s1) ∧
        ∀ k, msGet s1.storage t.dbIndex k = msGet s.storage t.dbIndex k) := by
  refine ⟨?_, ?_, ?_, ?_⟩
  · intro s sid hnt
    unfold startTransaction
    rw [if_neg (by simp [hnt])]
    simp [goMapGet_goMapSet]
  · intro s sid m
    unfold executeTransaction
    cases hget : goMapGet s.transactions sid with
    | none => simp [hget]
    | some o =>
      cases o with
      | none => simp [hget]
      | some t =>
        by_cases hErr : t.hasErrors = true
        · simp [hget, hErr]
        · cases hloop : execLoop t.dbIndex t.commands s.storage t.originalValues [] with
          | none => simp [hget, hErr, hloop]
          | some out => cases out <;> simp [hget, hErr, hloop]
  · intro s sid t res s1 hget hov hx j hj
    rw [executeTransaction_booked s sid t hget] at hx
    by_cases hErr : t.hasErrors = true
    · rw [if_pos hErr] at hx
      simp only [Option.some.injEq, Prod.mk.injEq] at hx
      obtain ⟨hres, hs1⟩ := hx
      subst hs1
      rfl
    · rw [if_neg hErr, hov] at hx
      cases hloop : execLoop t.dbIndex t.commands s.storage [] [] with
      | none =>
        rw [hloop] at hx
        exact Option.noConfusion hx
      | some out =>
        rw [hloop] at hx
        cases out with
        | aborted e2 st1 ov1 =>
          simp only [Option.some.injEq, Prod.mk.injEq] at hx
          obtain ⟨hres, hs1⟩ := hx
          subst hs1
          have hres2 := (execLoop_restores t.dbIndex s.storage t.commands s.storage [] []
            (by intro k p hmem; simp at hmem)
            (by intro k _; rfl)
            (by intro j2 _; rfl)).1 e2 st1 ov1 hloop
          exact hres2.2 j hj
        | success r st1 ov1 =>
          simp only [Option.some.injEq, Prod.mk.injEq] at hx
          obtain ⟨hres, hs1⟩ := hx
          subst hs1
          have hres2 := (execLoop_restores t.dbIndex s.storage t.commands s.storage [] []
            (by intro k p hmem; simp at hmem)
            (by intro k _; rfl)
            (by intro j2 _; rfl)).2 r st1 ov1 hloop
          exact hres2.2.2 j hj
  · intro s sid t pre rest args r1 st1 ov1 hget hErr hov hcmds hpre
    have hF : ovFaithful s.storage t.dbIndex [] := by intro k p hmem; simp at hmem
    have hU : storUntouched s.storage s.storage t.dbIndex [] := by intro k _; rfl
    have hO : otherDBsEq s.storage s.storage t.dbIndex := by intro j _; rfl
    have hinv := (execLoop_restores t.dbIndex s.storage pre s.storage [] [] hF hU hO).2
      r1 st1 ov1 hpre
    have hsel : execCommand t.dbIndex st1 ov1 { name := "SELECT", args := args } =
        some (StepResult.fail KVError.selectInTransaction ov1) := by
      simp [execCommand]
    have hfull : execLoop t.dbIndex t.commands s.storage [] [] =
        some (LoopOutcome.aborted KVError.selectInTransaction
          (rollbackSelective t.dbIndex ov1 st1) ov1) := by
      rw [hcmds, execLoop_append]
      simp only [hpre, execLoop, hsel]
    refine ⟨⟨rollbackSelective t.dbIndex ov1 st1, goMapDel s.transactions sid,
      s.clientDBIndices⟩, ?_, ?_⟩
    · rw [executeTransaction_booked s sid t hget, if_neg (by simp [hErr]), hov, hfull]
    · intro k
      exact (rollbackSelective_restores t.dbIndex s.storage ov1 st1
        hinv.1 hinv.2.1 hinv.2.2).1 k

/-- Witness for exec_uses_captured_db: a transaction captured at db index 2
whose batch is SET x 2 then SELECT 1; EXEC ignores the client db index map,
aborts at the SELECT, and db 2 reads back its pre-EXEC content. -/
theorem exec_uses_captured_db_witness :
    (executeTransaction { sC5 with clientDBIndices := [("1", 0)] } "1" =
      (executeTransaction sC5 "1").map
        (fun r => (r.1, { r.2 with clientDBIndices := [("1", 0)] }))) ∧
    (∃ s1, executeTransaction sC5 "1" =
        some (Except.error KVError.selectInTransaction, s1) ∧
      ∀ k, msGet s1.storage 2 k = msGet sC5.storage 2 k) := by
  refine ⟨exec_uses_captured_db.2.1 sC5 "1" [("1", 0)], ?_⟩
  exact exec_uses_captured_db.2.2.2 sC5 "1" tC5
    [{ name := "SET", args := ["x", "2"] }] [] ["1"] ["OK"]
    (msSet sC5.storage 2 "x" "2") [("x", some "1")] rfl rfl rfl rfl rfl

/-- C8 counterexample: the input consisting of a single double quote
tokenizes to no tokens at all, yet ParseCommandLine reports
MismatchedQuotes, not EmptyCommand: the unbalanced-quote check runs first. -/
theorem parse_quote_precedence_counterexample :
    (tokenizeLoop "\"".data [] "" false false).1 = [] ∧
    ParseCommandLine "\"" = Except.error ParseError.mismatchedQuotes ∧
    ParseCommandLine "\"" ≠ Except.error ParseError.emptyCommand := by
  refine ⟨rfl, rfl, ?_⟩
  intro h
  exact ParseError.noConfusion (Except.error.inj h)

/-- C8 amended: the line codec returns the first token uppercased with the
remaining tokens as literal arguments, and fails in this order of
precedence: an unbalanced double quote gives MismatchedQuotes (even when no
token was produced); otherwise no tokens gives EmptyCommand; otherwise
exactly one token gives MissingArgs. -/
theorem parse_command_line_cases (line : String) :
    ParseCommandLine line =
      match tokenizeLoop line.data [] "" false false with
      | (_, true) => Except.error ParseError.mismatchedQuotes
      | ([], false) => Except.error ParseError.emptyCommand
      | ([_], false) => Except.error ParseError.missingArgs
      | (tok :: toks, false) => Except.ok (goToUpper tok, toks) := by
  simp only [ParseCommandLine]
  cases h : tokenizeLoop line.data [] "" false false with
  | mk toks inQ =>
    cases inQ with
    | true => simp
    | false =>
      cases toks with
      | nil => simp
      | cons t1 ts =>
        cases ts with
        | nil => simp
        | cons t2 ts2 => simp

/-- C10: ParseCommandLine never returns the empty string as the command or
as an argument (a quoted empty string contributes no token), and the line
SET k followed by an empty quoted string parses to a one-argument SET that
validateCommand rejects by arity. -/
theorem parse_never_empty_token :
    (∀ (line cmd : String) (args : List String),
      ParseCommandLine line = Except.ok (cmd, args) →
      cmd ≠ "" ∧ ∀ a ∈ args, a ≠ "") ∧
    ParseCommandLine "SET k \"\"" = Except.ok ("SET", ["k"]) ∧
    validateCommand "SET" ["k"] = some (KVError.wrongArguments "SET") := by
  refine ⟨?_, rfl, rfl⟩
  intro line cmd args h
  have hne := tokenizeLoop_nonempty line.data [] "" false false
    (by intro a ha; simp at ha)
  simp only [ParseCommandLine] at h
  cases hr : tokenizeLoop line.data [] "" false false with
  | mk toks inQ =>
    rw [hr] at h hne
    cases inQ with
    | true => simp at h
    | false =>
      cases toks with
      | nil => simp at h
      | cons t1 ts =>
        cases ts with
        | nil => simp at h
        | cons t2 ts2 =>
          simp only [List.length_cons] at h
          simp at h
          obtain ⟨hcmd, hargs⟩ := h
          subst hcmd
          subst hargs
          constructor
          · exact goToUpper_ne_empty t1 (hne t1 (by simp))
          · intro a ha
            refine hne a ?_
            simp only []
            simp [ha]

/-- Witness for parse_never_empty_token at the line SET k v. -/
theorem parse_never_empty_token_witness :
    "SET" ≠ "" ∧ ∀ a ∈ ["k", "v"], a ≠ "" :=
  parse_never_empty_token.1 "SET k v" "SET" ["k", "v"] rfl

end KV
